import Mathlib

/-
Verification of the Netflix/go-iomux multiplexer against its specification.

The development shallowly embeds the Go source:

* `repairTruncatedReads` (src/iomux.go, lines 322-359) is embedded as a
  state-passing fold.  The Go inner loop of a flush mutates the slice it is
  ranging over (`bufferedData = append(bufferedData[:i], bufferedData[i+1:]...)`
  inside `for i, bd := range bufferedData`), so the embedding models the
  backing array, the live length, and the out-of-range slice failure
  (`bufferedData[i+1:]` with `i+1 > len`) explicitly.  A failed (panicking)
  run is represented by `none`.
* the context-based `Mux` (the current version: `Tag`, `Read`, `read`,
  `ReadUntil`, `ReadWhile`, `Close`) is embedded as pure functions over an
  explicit `MuxState` together with event traces standing for the
  socket-level read outcomes and the completion-channel deliveries.

Bytes are modelled as `Nat` (the line terminator is byte 10), addresses as
`Nat`, and the generic comparable tag type as a type with decidable
equality and a designated zero value (`Inhabited.default` stands for Go's
zero value of the tag type).
-/

namespace Iomux

/-- A tagged chunk: `TaggedData[T]` from the source (tag plus payload bytes). -/
structure TaggedData (T : Type) where
  tag : T
  data : List Nat
  deriving DecidableEq

/-- Association-list lookup, modelling Go map indexing (`m[k]` plus presence). -/
def alookup {T : Type} [DecidableEq T] (k : T) : List (T × Nat) → Option Nat
  | [] => none
  | p :: rest => if p.1 = k then some p.2 else alookup k rest

/-- The backward scan of `repairTruncatedReads` building `tagLastIndex`:
walk `i` from `len-1` down to `0`, record the first (hence rightmost)
position of each tag, and break as soon as the map has `numSenders`
entries.  The argument `i` is the number of positions still unscanned. -/
def lastIndexScan {T : Type} [DecidableEq T] [Inhabited T]
    (chunks : List (TaggedData T)) (numSenders : Nat) :
    Nat → List (T × Nat) → List (T × Nat)
  | 0, m => m
  | i + 1, m =>
    let tag := (chunks.getD i ⟨default, []⟩).tag
    let m2 := if (alookup tag m).isSome then m else (tag, i) :: m
    if m2.length = numSenders then m2 else lastIndexScan chunks numSenders i m2

/-- State of the flush inner loop of `repairTruncatedReads`: the backing
array of `bufferedData` (its length never changes during one flush), the
live slice length, the accumulated `td.Data`, and whether the loop hit the
out-of-range slice operation (a Go runtime panic). -/
structure FlushSt (T : Type) where
  arr : List (TaggedData T)
  len : Nat
  acc : List Nat
  panicked : Bool
  deriving DecidableEq

/-- The effect of `bufferedData = append(bufferedData[:i], bufferedData[i+1:]...)`
on the backing array when the live length is `curLen`: elements
`i+1 .. curLen-1` shift left one position, positions from `curLen-1`
upward keep their old values. -/
def removeShift {T : Type} (arr : List (TaggedData T)) (i curLen : Nat) :
    List (TaggedData T) :=
  arr.take i ++ ((arr.take curLen).drop (i + 1)) ++ arr.drop (curLen - 1)

/-- The flush inner loop `for i, bd := range bufferedData { if bd.Tag == tag
{ td.Data = append(bd.Data, data...); bufferedData = append(bufferedData[:i],
bufferedData[i+1:]...) } }`.  Go evaluates the range expression once, so the
iteration indices are fixed to `0 .. L0-1` while reads go through the
mutating backing array; `bufferedData[i+1:]` panics when `i+1` exceeds the
current live length. -/
def flushIter {T : Type} [DecidableEq T] [Inhabited T] (tag : T) (orig : List Nat) :
    List Nat → FlushSt T → FlushSt T
  | [], st => st
  | i :: rest, st =>
    if st.panicked then st
    else
      let bd := st.arr.getD i ⟨default, []⟩
      if bd.tag = tag then
        if st.len < i + 1 then
          flushIter tag orig rest { st with acc := bd.data ++ orig, panicked := true }
        else
          flushIter tag orig rest
            { st with arr := removeShift st.arr i st.len, len := st.len - 1,
                      acc := bd.data ++ orig }
      else flushIter tag orig rest st

/-- State of the forward pass of `repairTruncatedReads`. -/
structure RepairSt (T : Type) where
  buffer : List (TaggedData T)
  result : List (TaggedData T)
  panicked : Bool
  deriving DecidableEq

/-- Tag of the first pending chunk, or the given tag when the pending queue
is empty (`currentTag` in the source). -/
def headTagD {T : Type} (buffer : List (TaggedData T)) (t : T) : T :=
  match buffer with
  | [] => t
  | bd :: _ => bd.tag

/-- One iteration of the forward loop of `repairTruncatedReads` for the
chunk at position `i`.  `data[len(data)-1]` panics on an empty payload;
a flush runs the inner loop and, on success, keeps the first `len`
elements of the backing array as the new `bufferedData` and appends the
(possibly rewritten) chunk to `result`. -/
def repairStep {T : Type} [DecidableEq T] [Inhabited T] (lastIdx : List (T × Nat))
    (i : Nat) (td : TaggedData T) (st : RepairSt T) : RepairSt T :=
  if st.panicked then st
  else
    match td.data.getLast? with
    | none => { st with panicked := true }
    | some lastByte =>
      if (lastByte = 10 ∧ headTagD st.buffer td.tag = td.tag) ∨
          (alookup td.tag lastIdx).getD 0 = i then
        let fs := flushIter td.tag td.data (List.range st.buffer.length)
          ⟨st.buffer, st.buffer.length, td.data, false⟩
        if fs.panicked then { st with panicked := true }
        else { st with buffer := fs.arr.take fs.len,
                       result := st.result ++ [⟨td.tag, fs.acc⟩] }
      else { st with buffer := st.buffer ++ [td] }

/-- The forward loop of `repairTruncatedReads` over the chunk list, with
`i` the index of the next chunk. -/
def repairGo {T : Type} [DecidableEq T] [Inhabited T] (lastIdx : List (T × Nat)) :
    Nat → List (TaggedData T) → RepairSt T → RepairSt T
  | _, [], st => st
  | i, td :: rest, st => repairGo lastIdx (i + 1) rest (repairStep lastIdx i td st)

/-- `repairTruncatedReads` (src/iomux.go): builds `tagLastIndex` by the
bounded backward scan, then runs the forward flush/buffer pass.  `none`
models a Go runtime panic during the pass. -/
def repairTruncatedReads {T : Type} [DecidableEq T] [Inhabited T]
    (numSenders : Nat) (taggedData : List (TaggedData T)) :
    Option (List (TaggedData T)) :=
  let lastIdx := lastIndexScan taggedData numSenders taggedData.length []
  let fin := repairGo lastIdx 0 taggedData ⟨[], [], false⟩
  if fin.panicked then none else some fin.result

/-- The state of the pass after the first `k` chunks (used to phrase
per-chunk properties of the walk). -/
def repairRun {T : Type} [DecidableEq T] [Inhabited T]
    (numSenders : Nat) (input : List (TaggedData T)) (k : Nat) : RepairSt T :=
  repairGo (lastIndexScan input numSenders input.length []) 0
    (input.take k) ⟨[], [], false⟩

/-- Number of pending chunks carrying tag `t`. -/
def countTag {T : Type} [DecidableEq T] (buf : List (TaggedData T)) (t : T) : Nat :=
  (buf.filter (fun bd => bd.tag = t)).length

/-- Payload of the first pending chunk carrying tag `t` (empty when none
is pending). -/
def headMatchData {T : Type} [DecidableEq T] (buf : List (TaggedData T)) (t : T) :
    List Nat :=
  match buf.find? (fun bd => bd.tag = t) with
  | some bd => bd.data
  | none => []

/-- The flush condition actually evaluated by `repairTruncatedReads` for
chunk `td` at position `i` with pending queue `buffer`: the payload ends
in the line-terminator byte and the pending queue is empty or headed by a
chunk of the same tag, or the recorded last-occurrence index of the tag
(missing tags defaulting to `0`) equals `i`. -/
def codeCond {T : Type} [DecidableEq T] (lastIdx : List (T × Nat)) (i : Nat)
    (td : TaggedData T) (buffer : List (TaggedData T)) : Prop :=
  (td.data.getLast? = some 10 ∧ headTagD buffer td.tag = td.tag) ∨
    (alookup td.tag lastIdx).getD 0 = i

/-- Chunk `i` is the last occurrence of its tag in the input, in the
spec's literal sense. -/
def specLastOcc {T : Type} [DecidableEq T] [Inhabited T]
    (input : List (TaggedData T)) (i : Nat) : Prop :=
  ∀ j ∈ List.range input.length, i < j →
    (input.getD j ⟨default, []⟩).tag ≠ (input.getD i ⟨default, []⟩).tag

/-- Some pending chunk for the tag of chunk `i` exists when the walk
reaches chunk `i`, in the spec's literal sense. -/
def specPending {T : Type} [DecidableEq T] [Inhabited T] (n : Nat)
    (input : List (TaggedData T)) (i : Nat) : Prop :=
  ∃ bd ∈ (repairRun n input i).buffer,
    bd.tag = (input.getD i ⟨default, []⟩).tag

/-- Chunk `i` produces an emitted chunk (the walk's result sequence grows
at step `i`). -/
def emitAt {T : Type} [DecidableEq T] [Inhabited T] (n : Nat)
    (input : List (TaggedData T)) (i : Nat) : Prop :=
  (repairRun n input i).result.length < (repairRun n input (i + 1)).result.length

/-- The flush rule exactly as the specification states it: a chunk is
emitted precisely when it is the last occurrence of its tag, or its
payload ends in a line-terminator byte while a pending buffer for the
same tag exists. -/
def repairFlushClaim {T : Type} [DecidableEq T] [Inhabited T] (n : Nat)
    (input : List (TaggedData T)) : Prop :=
  ∀ i ∈ List.range input.length,
    emitAt n input i ↔
      (specLastOcc input i ∨
        ((input.getD i ⟨default, []⟩).data.getLast? = some 10 ∧ specPending n input i))

/- Sanity check: the model reproduces `TestMuxTruncatedRead` from iomux_test.go
(payloads shortened, preserving the trailing-newline structure; tag a = 0,
tag b = 1, two senders): writes a:[1,10] b:[2,10] a:[3,10] b:[4] a:[5,10]
b:[6] a:[7,10] reassemble to the five chunks the test asserts. -/
example :
    repairTruncatedReads 2
      [⟨0, [1, 10]⟩, ⟨1, [2, 10]⟩, ⟨0, [3, 10]⟩, ⟨1, [4]⟩,
        ⟨0, [5, 10]⟩, ⟨1, [6]⟩, ⟨0, [7, 10]⟩] =
    some [⟨0, [1, 10]⟩, ⟨1, [2, 10]⟩, ⟨0, [3, 10]⟩, ⟨1, [4, 6]⟩,
        ⟨0, [5, 10, 7, 10]⟩] := by decide

/-
Embedding of the context-based Mux (the current version of the source:
`Tag`, `Read`, `read`, `ReadUntil`, `ReadWhile`, `Close`).  Socket reads and
completion-channel deliveries are modelled by event traces; `ctx.Done`
resolution inside the low-level read loop and in the fan-in wait loop is
part of the trace.
-/

/-- The error values the embedding distinguishes: the wrapped
`os.ErrDeadlineExceeded`, the `io.EOF` sentinel, the two package sentinels
`MuxClosed` and `MuxNoConnections`, and arbitrary other transport errors. -/
inductive GoError where
  | deadlineExceeded
  | eof
  | muxClosed
  | noConnections
  | other (code : Nat)
  deriving DecidableEq

/-- Outcome of one `conn.ReadFrom` call: payload bytes plus the reported
peer address (datagram transports report one, stream transports report
none), or an error. -/
inductive NetOutcome where
  | ok (data : List Nat) (addr : Option Nat)
  | fail (e : GoError)
  deriving DecidableEq

/-- One socket-level read outcome together with whether the cancellation
scope was already signaled at the point the loop checks `ctx.Done`. -/
structure NetEvent where
  outcome : NetOutcome
  ctxDone : Bool
  deriving DecidableEq

/-- The per-sender test of the tag-resolution loop in `Mux.read`: the
inbound chunk's reported peer address (when present) must equal the
sender's local address; for stream transports (no reported address) the
connection's remote address must equal it. -/
def senderMatch {T : Type} (addr remoteAddr : Option Nat) (p : T × Nat) : Bool :=
  match addr with
  | some a => a = p.2
  | none =>
    match remoteAddr with
    | some r => r = p.2
    | none => false

/-- Tag resolution from `Mux.read`: scan the registered senders and match
the reported peer address (datagram) or, failing that, the connection's
remote address (stream) against each sender's local address; an unmatched
chunk keeps the zero value of the tag type (`default`). -/
def resolveTag {T : Type} [DecidableEq T] [Inhabited T] (senders : List (T × Nat))
    (addr : Option Nat) (remoteAddr : Option Nat) : T :=
  match senders.find? (senderMatch addr remoteAddr) with
  | some s => s.1
  | none => default

/-- Result of one `Read`: a chunk with its resolved tag, an error, or
`pending` when the modelled trace ends before the loop returns (the code
would still be polling). -/
inductive RRes (T : Type) where
  | ok (data : List Nat) (tag : T)
  | err (e : GoError)
  | pending
  deriving DecidableEq

/-- `Mux.read` (the per-connection bounded-deadline read loop): a
non-deadline error returns immediately; a deadline-exceeded returns the
`io.EOF` sentinel when the scope is already cancelled and otherwise
retries; a successful read returns the bytes with the resolved tag. -/
def readConn {T : Type} [DecidableEq T] [Inhabited T] (senders : List (T × Nat))
    (remoteAddr : Option Nat) : List NetEvent → RRes T
  | [] => .pending
  | e :: rest =>
    match e.outcome with
    | .fail err =>
      if err = .deadlineExceeded then
        if e.ctxDone then .err .eof else readConn senders remoteAddr rest
      else .err err
    | .ok d addr => .ok d (resolveTag senders addr remoteAddr)

/-- One resolution of the fan-in wait loop's `select`: a delivery on the
completion channel (the worker for connection `conn` finished the
low-level read whose events were `evs`), the `ctx.Done` branch, or the
`default` branch (sleep and poll again). -/
inductive Poll where
  | recv (conn : Nat) (evs : List NetEvent)
  | ctxDone
  | idle

/-- The fan-in wait loop of `Mux.Read` for several connections: a delivered
`io.EOF` marks that connection's per-scope end-of-stream flag and polling
continues; any other delivered error, or delivered data, returns; the
`ctx.Done` branch returns the `io.EOF` sentinel exactly when every
registered connection is marked.  Returns the result together with the
final set of marked connections. -/
def readLoop {T : Type} [DecidableEq T] [Inhabited T] (senders : List (T × Nat))
    (remotes : Nat → Option Nat) (conns : List Nat) :
    List Nat → List Poll → RRes T × List Nat
  | eofSet, [] => (.pending, eofSet)
  | eofSet, p :: rest =>
    match p with
    | .recv c evs =>
      match readConn (T := T) senders (remotes c) evs with
      | .err .eof => readLoop senders remotes conns (c :: eofSet) rest
      | .err e => (.err e, eofSet)
      | .ok d t => (.ok d t, eofSet)
      | .pending => (.pending, eofSet)
    | .ctxDone =>
      if conns.all (fun c => c ∈ eofSet) then (.err .eof, eofSet)
      else readLoop senders remotes conns eofSet rest
    | .idle => readLoop senders remotes conns eofSet rest

/-- The multiplexer state the embedded operations act on: the closed flag,
whether the one-shot receiver initialization has run, the network kind,
the receive connections, the registered senders (tag and the sender
connection's local address), and a counter of resource releases (closing
the registered closers and removing the directory counts as one
release). -/
structure MuxState (T : Type) where
  closed : Bool
  receiverCreated : Bool
  network : String
  conns : List Nat
  senders : List (T × Nat)
  resourceReleases : Nat
  deriving DecidableEq

/-- A freshly constructed multiplexer (`NewMuxUnix` and friends return
`&Mux[T]{network: ...}`, all other fields zero). -/
def mkMux (T : Type) (network : String) : MuxState T :=
  ⟨false, false, network, [], [], 0⟩

/-- `Mux.Close`: already closed reports the sentinel and does nothing;
otherwise the closed flag is set and the resources are released once. -/
def muxClose {T : Type} (s : MuxState T) : Option GoError × MuxState T :=
  if s.closed then (some .muxClosed, s)
  else (none, { s with closed := true, resourceReleases := s.resourceReleases + 1 })

/-- `Mux.Read`: closed and no-connection checks, then either the direct
single-connection read or the concurrent fan-in loop. -/
def muxRead {T : Type} [DecidableEq T] [Inhabited T] (s : MuxState T)
    (remotes : Nat → Option Nat) (eofSet : List Nat)
    (singleEvs : List NetEvent) (polls : List Poll) : RRes T :=
  if s.closed then .err .muxClosed
  else if s.conns.length = 0 then .err .noConnections
  else if s.conns.length = 1 then
    readConn s.senders (remotes (s.conns.headD 0)) singleEvs
  else (readLoop s.senders remotes s.conns eofSet polls).1

/-- Environment of one `Tag` call: the outcome of the one-shot receiver
initialization, of the accept and the dial steps of the sender handshake,
and of the final `File()` call, plus fresh identifiers for the created
connection and socket address. -/
structure TagEnv where
  recvInitErr : Option GoError
  acceptErr : Option GoError
  dialErr : Option GoError
  fileErr : Option GoError
  newConn : Nat
  newAddr : Nat
  deriving DecidableEq

/-- `Mux.Tag` with `createReceiver` and `createSender` inlined: a failed
receiver initialization closes the whole multiplexer; an already
registered tag only re-derives the file handle; otherwise the accept step
(a no-op for datagram transports) and the dial step run, `acceptErr` is
checked first, and only a fully successful handshake registers the
sender.  A successful stream accept appends a receive connection even
when the dial subsequently fails. -/
def muxTag {T : Type} [DecidableEq T] (s : MuxState T) (tag : T) (env : TagEnv) :
    Except GoError Nat × MuxState T :=
  if s.closed then (.error .muxClosed, s)
  else
    match (if s.receiverCreated then none else env.recvInitErr) with
    | some e => (.error e, (muxClose s).2)
    | none =>
      let s1 : MuxState T :=
        if s.receiverCreated then s
        else { s with receiverCreated := true,
                      conns := if s.network = "unixgram" then s.conns ++ [env.newConn]
                               else s.conns }
      if (alookup tag s1.senders).isSome then
        match env.fileErr with
        | some e => (.error e, s1)
        | none => (.ok ((alookup tag s1.senders).getD 0), s1)
      else
        let aErr := if s1.network = "unixgram" then none else env.acceptErr
        let s2 : MuxState T :=
          if s1.network = "unixgram" ∨ aErr.isSome then s1
          else { s1 with conns := s1.conns ++ [env.newConn] }
        match aErr with
        | some e => (.error e, s1)
        | none =>
          match env.dialErr with
          | some e => (.error e, s2)
          | none =>
            let s3 := { s2 with senders := s2.senders ++ [(tag, env.newAddr)] }
            match env.fileErr with
            | some e => (.error e, s3)
            | none => (.ok env.newConn, s3)

/-- The coalescing step of `ReadUntil`: a chunk whose tag equals the tag of
the last accumulated entry is appended onto that entry, otherwise it
starts a new entry. -/
def coalesce {T : Type} [DecidableEq T] (acc : List (TaggedData T)) (tag : T)
    (data : List Nat) : List (TaggedData T) :=
  match acc.getLast? with
  | some prev =>
    if prev.tag = tag then acc.dropLast ++ [⟨prev.tag, prev.data ++ data⟩]
    else acc ++ [⟨tag, data⟩]
  | none => acc ++ [⟨tag, data⟩]

/-- The accumulation loop of `ReadUntil` over the successive outcomes of
`Read`: `io.EOF` returns the accumulated chunks with no error, any other
error returns `nil` plus that error, data is coalesced.  `none` models a
loop that is still reading when the modelled trace ends. -/
def readUntilLoop {T : Type} [DecidableEq T] :
    List (RRes T) → List (TaggedData T) →
    Option (List (TaggedData T) × Option GoError)
  | [], _ => none
  | r :: rest, acc =>
    match r with
    | .ok d t => readUntilLoop rest (coalesce acc t d)
    | .err e => if e = .eof then some (acc, none) else some ([], some e)
    | .pending => none

/-- `Mux.ReadUntil`: the closed check, then the accumulation loop. -/
def readUntil {T : Type} [DecidableEq T] (closed : Bool) (reads : List (RRes T)) :
    Option (List (TaggedData T) × Option GoError) :=
  if closed then some ([], some .muxClosed) else readUntilLoop reads []

/-- `Mux.ReadWhile`: the closed check, then `ReadUntil`; a session error is
returned with no data, otherwise the chunks are returned together with
the background operation's own result. -/
def readWhile {T : Type} [DecidableEq T] (closed : Bool) (waitErr : Option GoError)
    (reads : List (RRes T)) : Option (List (TaggedData T) × Option GoError) :=
  if closed then some ([], some .muxClosed)
  else
    match readUntilLoop reads [] with
    | none => none
    | some (_, some e) => some ([], some e)
    | some (td, none) => some (td, waitErr)

instance {T : Type} [DecidableEq T] [Inhabited T] (n : Nat)
    (input : List (TaggedData T)) : Decidable (repairFlushClaim n input) := by
  unfold repairFlushClaim emitAt specLastOcc specPending
  exact inferInstance

/-- Some event of the list is a deadline-exceeded read outcome observed
after the scope's cancellation was signaled. -/
def dlAfterCancel (evs : List NetEvent) : Bool :=
  evs.any (fun e => e.outcome = .fail .deadlineExceeded ∧ e.ctxDone = true)

/-- Some worker delivery for connection `c` in the poll trace carries a
deadline-exceeded-after-cancel event. -/
def connTimedOut (c : Nat) : List Poll → Bool
  | [] => false
  | .recv c2 evs :: rest => ((c2 = c : Bool) && dlAfterCancel evs) || connTimedOut c rest
  | _ :: rest => connTimedOut c rest

/-- Concatenation of the payload bytes attributed to tag `u`, in order. -/
def perTagBytes {T : Type} [DecidableEq T] (u : T) : List (TaggedData T) → List Nat
  | [] => []
  | td :: rest => (if td.tag = u then td.data else []) ++ perTagBytes u rest

/-- Concatenation of the payload bytes of the successful reads for tag `u`
consumed before the end-of-stream sentinel. -/
def okBytes {T : Type} [DecidableEq T] (u : T) : List (RRes T) → List Nat
  | [] => []
  | .ok d t :: rest => (if t = u then d else []) ++ okBytes u rest
  | .err _ :: _ => []
  | .pending :: _ => []

/- Sanity check: the fan-in loop declares end-of-stream only after every
connection delivered a deadline-exceeded-after-cancel `io.EOF`. -/
example :
    (readLoop (T := Nat) [] (fun _ => none) [0, 1] []
      [.recv 0 [⟨.fail .deadlineExceeded, true⟩], .ctxDone,
        .recv 1 [⟨.fail .deadlineExceeded, true⟩], .ctxDone]).1 =
    .err .eof := by decide

/- Sanity check: a cancellation poll with one connection still unmarked
keeps polling rather than declaring end-of-stream. -/
example :
    (readLoop (T := Nat) [] (fun _ => none) [0, 1] []
      [.recv 0 [⟨.fail .deadlineExceeded, true⟩], .ctxDone]).1 =
    (RRes.pending : RRes Nat) := by decide

/-
Theorems.
-/

/-- C7: the multiplexer transitions to the closed state exactly once and
irreversibly: on a closed multiplexer every public operation (Tag, Read,
ReadUntil, ReadWhile, Close) returns the closed sentinel and leaves the
state unchanged (so no resources are re-released and the flag never
clears), and the first Close on an open multiplexer succeeds, sets the
flag, and releases the resources exactly once. -/
theorem close_idempotent_and_irreversible {T : Type} [DecidableEq T] [Inhabited T]
    (s : MuxState T) (tag : T) (env : TagEnv) (remotes : Nat → Option Nat)
    (eofSet : List Nat) (singleEvs : List NetEvent) (polls : List Poll)
    (reads : List (RRes T)) (waitErr : Option GoError) :
    (s.closed = true →
      muxClose s = (some .muxClosed, s) ∧
      muxTag s tag env = (.error .muxClosed, s) ∧
      muxRead s remotes eofSet singleEvs polls = .err .muxClosed ∧
      readUntil s.closed reads = some ([], some .muxClosed) ∧
      readWhile s.closed waitErr reads = some ([], some .muxClosed)) ∧
    (s.closed = false →
      (muxClose s).1 = none ∧
      (muxClose s).2.closed = true ∧
      (muxClose s).2.resourceReleases = s.resourceReleases + 1 ∧
      muxClose (muxClose s).2 = (some .muxClosed, (muxClose s).2)) := by
  refine ⟨fun hc => ?_, fun hop => ?_⟩
  · refine ⟨?_, ?_, ?_, ?_, ?_⟩
    · simp [muxClose, hc]
    · simp [muxTag, hc]
    · simp [muxRead, hc]
    · simp [readUntil, hc]
    · simp [readWhile, hc]
  · refine ⟨?_, ?_, ?_, ?_⟩
    · simp [muxClose, hop]
    · simp [muxClose, hop]
    · simp [muxClose, hop]
    · simp [muxClose, hop]

/-- Witness for C7 at a concrete closed state and a concrete open state. -/
theorem close_idempotent_and_irreversible_witness :
    ((⟨true, true, "unix", [3], [(1, 9)], 1⟩ : MuxState Nat).closed = true ∧
      muxClose (⟨true, true, "unix", [3], [(1, 9)], 1⟩ : MuxState Nat) =
        (some .muxClosed, ⟨true, true, "unix", [3], [(1, 9)], 1⟩)) ∧
    ((⟨false, true, "unix", [3], [(1, 9)], 0⟩ : MuxState Nat).closed = false ∧
      (muxClose (⟨false, true, "unix", [3], [(1, 9)], 0⟩ : MuxState Nat)).2.closed
        = true) := by
  constructor
  · exact ⟨rfl,
      ((close_idempotent_and_irreversible (⟨true, true, "unix", [3], [(1, 9)], 1⟩ :
        MuxState Nat) 0 ⟨none, none, none, none, 0, 0⟩ (fun _ => none) [] [] [] []
        none).1 rfl).1⟩
  · exact ⟨rfl,
      (((close_idempotent_and_irreversible (⟨false, true, "unix", [3], [(1, 9)], 0⟩ :
        MuxState Nat) 0 ⟨none, none, none, none, 0, 0⟩ (fun _ => none) [] [] [] []
        none).2 rfl).2).1⟩

/-- C8 counterexample: a first Tag call whose dial step fails after the
receive endpoint was created leaves an open multiplexer with zero
registered tags but one receive connection; Read there does not return the
no-connections error — on an empty event trace it is still polling
(blocking on the read deadline), and once a deadline expires after
cancellation it returns the io.EOF sentinel instead. -/
theorem read_no_connections_zero_tags_false :
    (muxTag (mkMux Nat "unixgram") 0
        ⟨none, none, some (.other 1), none, 5, 9⟩).2.closed = false ∧
    (muxTag (mkMux Nat "unixgram") 0
        ⟨none, none, some (.other 1), none, 5, 9⟩).2.senders = [] ∧
    (muxTag (mkMux Nat "unixgram") 0
        ⟨none, none, some (.other 1), none, 5, 9⟩).2.conns = [5] ∧
    muxRead (muxTag (mkMux Nat "unixgram") 0
        ⟨none, none, some (.other 1), none, 5, 9⟩).2 (fun _ => none) []
      [⟨.fail .deadlineExceeded, true⟩] [] = .err .eof ∧
    muxRead (muxTag (mkMux Nat "unixgram") 0
        ⟨none, none, some (.other 1), none, 5, 9⟩).2 (fun _ => none) [] [] [] =
      (.pending : RRes Nat) := by
  exact ⟨rfl, rfl, rfl, rfl, rfl⟩

/-- C8 amended: Read on an open multiplexer with an empty
receive-connection list — which holds for every freshly constructed
multiplexer of any transport kind before its first Tag call — returns the
no-connections error for every possible event trace, hence immediately and
without blocking or waiting on any deadline.  (Zero registered tags alone
does not suffice: see the counterexample above.) -/
theorem read_no_connections_immediate {T : Type} [DecidableEq T] [Inhabited T]
    (s : MuxState T) (network : String) (remotes : Nat → Option Nat)
    (eofSet : List Nat) (singleEvs : List NetEvent) (polls : List Poll)
    (hopen : s.closed = false) (hconns : s.conns = []) :
    muxRead s remotes eofSet singleEvs polls = .err .noConnections ∧
    muxRead (mkMux T network) remotes eofSet singleEvs polls =
      .err .noConnections := by
  constructor
  · simp [muxRead, hopen, hconns]
  · simp [muxRead, mkMux]

/-- Witness for C8 on a fresh multiplexer of each transport kind, with a
nonempty pending trace that the call provably never consumes. -/
theorem read_no_connections_immediate_witness :
    ((mkMux Nat "unixgram").closed = false ∧ (mkMux Nat "unixgram").conns = []) ∧
    muxRead (mkMux Nat "unixgram") (fun _ => none) []
      [⟨.ok [1] none, false⟩] [.ctxDone] = .err .noConnections ∧
    muxRead (mkMux Nat "unix") (fun _ => none) []
      [⟨.ok [1] none, false⟩] [.ctxDone] = .err .noConnections ∧
    muxRead (mkMux Nat "unixpacket") (fun _ => none) []
      [⟨.ok [1] none, false⟩] [.ctxDone] = .err .noConnections := by
  refine ⟨⟨rfl, rfl⟩, ?_, ?_, ?_⟩
  · exact (read_no_connections_immediate (mkMux Nat "unixgram") "unixgram"
      (fun _ => none) [] [⟨.ok [1] none, false⟩] [.ctxDone] rfl rfl).1
  · exact (read_no_connections_immediate (mkMux Nat "unix") "unix"
      (fun _ => none) [] [⟨.ok [1] none, false⟩] [.ctxDone] rfl rfl).1
  · exact (read_no_connections_immediate (mkMux Nat "unixpacket") "unixpacket"
      (fun _ => none) [] [⟨.ok [1] none, false⟩] [.ctxDone] rfl rfl).1

/-- C5 counterexample: an accept-step failure during the first Tag call for
tag 2 on an open stream-transport multiplexer returns the handshake error
but does not close the multiplexer, and subsequent operations (Close,
Tag) do not report the closed sentinel — refuting the claim that any
handshake failure forces the whole multiplexer closed. -/
theorem tag_handshake_failure_leaves_open :
    (muxTag (⟨false, true, "unix", [5, 6], [(1, 9)], 0⟩ : MuxState Nat) 2
        ⟨none, some (.other 7), none, none, 12, 13⟩).1 = .error (.other 7) ∧
    (muxTag (⟨false, true, "unix", [5, 6], [(1, 9)], 0⟩ : MuxState Nat) 2
        ⟨none, some (.other 7), none, none, 12, 13⟩).2.closed = false ∧
    (muxClose (muxTag (⟨false, true, "unix", [5, 6], [(1, 9)], 0⟩ : MuxState Nat) 2
        ⟨none, some (.other 7), none, none, 12, 13⟩).2).1 = none ∧
    (muxTag (muxTag (⟨false, true, "unix", [5, 6], [(1, 9)], 0⟩ : MuxState Nat) 2
        ⟨none, some (.other 7), none, none, 12, 13⟩).2 2
        ⟨none, none, none, none, 14, 15⟩).1 = .ok 14 := by
  exact ⟨rfl, rfl, rfl, rfl⟩

/-- C5 amended: a failure of the one-shot receive-endpoint creation during
Tag forces the whole multiplexer closed (with its resources released), while
a handshake failure — the accept step or the dial step of the sender
creation returning an error — only returns that error and leaves the
multiplexer open. -/
theorem tag_failure_close_policy {T : Type} [DecidableEq T]
    (s : MuxState T) (tag : T) (env : TagEnv) (e : GoError)
    (hopen : s.closed = false) :
    (s.receiverCreated = false → env.recvInitErr = some e →
      muxTag s tag env =
        (.error e, { s with closed := true,
                            resourceReleases := s.resourceReleases + 1 })) ∧
    (s.receiverCreated = true → alookup tag s.senders = none →
      s.network ≠ "unixgram" → env.acceptErr = some e →
      (muxTag s tag env).1 = .error e ∧ (muxTag s tag env).2.closed = false) ∧
    (s.receiverCreated = true → alookup tag s.senders = none →
      (if s.network = "unixgram" then none else env.acceptErr) = none →
      env.dialErr = some e →
      (muxTag s tag env).1 = .error e ∧ (muxTag s tag env).2.closed = false) := by
  refine ⟨fun hr herr => ?_, fun hr hlook hnet hacc => ?_, fun hr hlook hacc hd => ?_⟩
  · simp [muxTag, hopen, hr, herr, muxClose]
  · constructor
    · simp [muxTag, hopen, hr, hlook, hnet, hacc]
    · simp [muxTag, hopen, hr, hlook, hnet, hacc]
  · by_cases hnet : s.network = "unixgram"
    · constructor
      · simp [muxTag, hopen, hr, hlook, hnet, hd]
      · simp [muxTag, hopen, hr, hlook, hnet, hd]
    · rw [if_neg hnet] at hacc
      constructor
      · simp [muxTag, hopen, hr, hlook, hnet, hacc, hd]
      · simp [muxTag, hopen, hr, hlook, hnet, hacc, hd]

/-- Witness for C5 amended, covering the receiver-creation failure (which
closes) and the dial failure (which leaves the multiplexer open). -/
theorem tag_failure_close_policy_witness :
    ((⟨false, false, "unix", [], [], 0⟩ : MuxState Nat).closed = false ∧
      muxTag (⟨false, false, "unix", [], [], 0⟩ : MuxState Nat) 2
        ⟨some (.other 3), none, none, none, 12, 13⟩ =
        (.error (.other 3), ⟨true, false, "unix", [], [], 1⟩)) ∧
    ((⟨false, true, "unix", [5], [(1, 9)], 0⟩ : MuxState Nat).closed = false ∧
      (muxTag (⟨false, true, "unix", [5], [(1, 9)], 0⟩ : MuxState Nat) 2
        ⟨none, none, some (.other 4), none, 12, 13⟩).1 = .error (.other 4) ∧
      (muxTag (⟨false, true, "unix", [5], [(1, 9)], 0⟩ : MuxState Nat) 2
        ⟨none, none, some (.other 4), none, 12, 13⟩).2.closed = false) := by
  constructor
  · exact ⟨rfl,
      (tag_failure_close_policy (⟨false, false, "unix", [], [], 0⟩ : MuxState Nat) 2
        ⟨some (.other 3), none, none, none, 12, 13⟩ (.other 3) rfl).1 rfl rfl⟩
  · refine ⟨rfl, ?_, ?_⟩
    · exact ((tag_failure_close_policy (⟨false, true, "unix", [5], [(1, 9)], 0⟩ :
        MuxState Nat) 2 ⟨none, none, some (.other 4), none, 12, 13⟩ (.other 4)
        rfl).2.2 rfl (by decide) (by decide) rfl).1
    · exact ((tag_failure_close_policy (⟨false, true, "unix", [5], [(1, 9)], 0⟩ :
        MuxState Nat) 2 ⟨none, none, some (.other 4), none, 12, 13⟩ (.other 4)
        rfl).2.2 rfl (by decide) (by decide) rfl).2

/-- C10: when an inbound chunk's reported peer address matches no
registered sender (and, with no reported address, the connection's remote
address matches none either), the read attributes the chunk to the zero
value of the tag type and returns it without error — making it equal to
what a read of a chunk legitimately sent by a sender registered under the
zero-valued tag returns. -/
theorem unresolved_chunk_zero_tag {T : Type} [DecidableEq T] [Inhabited T]
    (senders : List (T × Nat)) (remote addr : Option Nat) (d : List Nat)
    (b : Bool) (rest : List NetEvent) (a : Nat)
    (hnomatch : ∀ p ∈ senders, senderMatch addr remote p = false) :
    resolveTag senders addr remote = (default : T) ∧
    readConn senders remote (⟨.ok d addr, b⟩ :: rest) = .ok d (default : T) ∧
    resolveTag [((default : T), a)] (some a) remote = (default : T) ∧
    readConn [((default : T), a)] remote (⟨.ok d (some a), b⟩ :: rest) =
      .ok d (default : T) := by
  have hfind : senders.find? (senderMatch addr remote) = none := by
    rw [List.find?_eq_none]
    intro p hp
    simp [hnomatch p hp]
  refine ⟨?_, ?_, ?_, ?_⟩
  · simp [resolveTag, hfind]
  · simp [readConn, resolveTag, hfind]
  · simp [resolveTag, senderMatch, List.find?]
  · simp [readConn, resolveTag, senderMatch, List.find?]

/-- Witness for C10: a stream-transport chunk whose connection resolves to
no registered sender, at concrete inputs. -/
theorem unresolved_chunk_zero_tag_witness :
    (∀ p ∈ [((1 : Nat), (9 : Nat)), (2, 11)],
      senderMatch none (some 7) p = false) ∧
    resolveTag [((1 : Nat), 9), (2, 11)] none (some 7) = 0 ∧
    readConn [((1 : Nat), 9), (2, 11)] (some 7)
      [⟨.ok [5, 10] none, false⟩] = .ok [5, 10] 0 := by
  refine ⟨by decide, ?_, ?_⟩
  · exact (unresolved_chunk_zero_tag [((1 : Nat), 9), (2, 11)] (some 7) none
      [5, 10] false [] 7 (by decide)).1
  · exact (unresolved_chunk_zero_tag [((1 : Nat), 9), (2, 11)] (some 7) none
      [5, 10] false [] 7 (by decide)).2.1

lemma readConn_ne_deadline {T : Type} [DecidableEq T] [Inhabited T]
    (senders : List (T × Nat)) (remote : Option Nat) :
    ∀ evs : List NetEvent,
      readConn (T := T) senders remote evs ≠ .err .deadlineExceeded
  | [] => by simp [readConn]
  | e :: rest => by
    rcases e with ⟨outc, done⟩
    rcases outc with ⟨d, addr⟩ | err
    · simp [readConn]
    · by_cases hdl : err = .deadlineExceeded
      · subst hdl
        by_cases hd : done
        · subst hd
          simp [readConn]
        · simp only [Bool.not_eq_true] at hd
          subst hd
          simpa [readConn] using readConn_ne_deadline senders remote rest
      · simp [readConn, hdl]

lemma readLoop_ne_deadline {T : Type} [DecidableEq T] [Inhabited T]
    (senders : List (T × Nat)) (remotes : Nat → Option Nat) (conns : List Nat) :
    ∀ (polls : List Poll) (eofSet : List Nat),
      (readLoop (T := T) senders remotes conns eofSet polls).1 ≠
        .err .deadlineExceeded
  | [], eofSet => by simp [readLoop]
  | p :: rest, eofSet => by
    rcases p with ⟨c, evs⟩ | _ | _
    · rcases hr : readConn (T := T) senders (remotes c) evs with _ | e | _
      · simp [readLoop, hr]
      · rcases e with _ | _ | _ | _ | code
        · exact absurd hr (readConn_ne_deadline senders (remotes c) evs)
        · simpa [readLoop, hr] using
            readLoop_ne_deadline senders remotes conns rest (c :: eofSet)
        · simp [readLoop, hr]
        · simp [readLoop, hr]
        · simp [readLoop, hr]
      · simp [readLoop, hr]
    · by_cases hall : conns.all (fun c => c ∈ eofSet)
      · simp [readLoop, hall]
      · simpa [readLoop, hall] using
          readLoop_ne_deadline senders remotes conns rest eofSet
    · simpa [readLoop] using readLoop_ne_deadline senders remotes conns rest eofSet

lemma muxRead_ne_deadline {T : Type} [DecidableEq T] [Inhabited T]
    (s : MuxState T) (remotes : Nat → Option Nat) (eofSet : List Nat)
    (singleEvs : List NetEvent) (polls : List Poll) :
    muxRead s remotes eofSet singleEvs polls ≠ .err .deadlineExceeded := by
  unfold muxRead
  by_cases hc : s.closed
  · simp [hc]
  · by_cases h0 : s.conns.length = 0
    · simp [hc, h0]
    · by_cases h1 : s.conns.length = 1
      · simpa [hc, h0, h1] using
          readConn_ne_deadline s.senders (remotes (s.conns.headD 0)) singleEvs
      · simpa [hc, h0, h1] using
          readLoop_ne_deadline s.senders remotes s.conns polls eofSet

lemma readUntilLoop_error_discards {T : Type} [DecidableEq T] :
    ∀ (reads : List (RRes T)) (acc out : List (TaggedData T)) (e : GoError),
      (∀ r ∈ reads, r ≠ .err .deadlineExceeded) →
      readUntilLoop reads acc = some (out, some e) →
      out = [] ∧ e ≠ .deadlineExceeded
  | [], acc, out, e => by simp [readUntilLoop]
  | r :: rest, acc, out, e => by
    intro hclean heq
    rcases r with ⟨d, t⟩ | e2 | _
    · exact readUntilLoop_error_discards rest (coalesce acc t d) out e
        (fun x hx => hclean x (List.mem_cons_of_mem _ hx)) heq
    · by_cases he2 : e2 = .eof
      · subst he2
        simp [readUntilLoop] at heq
      · simp [readUntilLoop, he2] at heq
        refine ⟨heq.1, ?_⟩
        have : (RRes.err e2 : RRes T) ≠ .err .deadlineExceeded :=
          hclean _ (List.mem_cons_self _ _)
        rw [← heq.2]
        intro hcontra
        exact this (by rw [hcontra])
    · simp [readUntilLoop] at heq

/-- C6: deadline-exceeded read errors are absorbed inside the read layer —
neither the per-connection read, nor the fan-in loop, nor Read itself ever
returns deadline-exceeded, so it cannot reach ReadUntil or ReadWhile; and
any other read error makes the session return exactly that error together
with no data (the chunks accumulated so far are discarded), ReadWhile
propagating the same discarded-data error result. -/
theorem deadline_absorbed_and_error_discards {T : Type} [DecidableEq T] [Inhabited T]
    (senders : List (T × Nat)) (remote : Option Nat) (evs : List NetEvent)
    (s : MuxState T) (remotes : Nat → Option Nat) (eofSet : List Nat)
    (singleEvs : List NetEvent) (polls : List Poll)
    (reads : List (RRes T)) (acc out out2 : List (TaggedData T)) (e e2 : GoError)
    (waitErr : Option GoError)
    (hclean : ∀ r ∈ reads, r ≠ .err .deadlineExceeded) :
    readConn (T := T) senders remote evs ≠ .err .deadlineExceeded ∧
    muxRead s remotes eofSet singleEvs polls ≠ .err .deadlineExceeded ∧
    (readUntilLoop reads acc = some (out, some e) →
      out = [] ∧ e ≠ .deadlineExceeded) ∧
    (readUntilLoop reads [] = some (out2, some e2) →
      readWhile false waitErr reads = some ([], some e2)) := by
  refine ⟨readConn_ne_deadline senders remote evs,
    muxRead_ne_deadline s remotes eofSet singleEvs polls,
    fun h => readUntilLoop_error_discards reads acc out e hclean h,
    fun h => ?_⟩
  simp [readWhile, h]

/-- Witness for C6: a session whose second read fails with a non-deadline
transport error after a successful first read; the session returns the
error with no data. -/
theorem deadline_absorbed_and_error_discards_witness :
    (∀ r ∈ [RRes.ok [1] (0 : Nat), .err (.other 3)],
      r ≠ .err .deadlineExceeded) ∧
    (readUntilLoop [RRes.ok [1] (0 : Nat), .err (.other 3)] [] =
        some ([], some (.other 3)) →
      [] = ([] : List (TaggedData Nat)) ∧
        GoError.other 3 ≠ .deadlineExceeded) ∧
    readWhile false none [RRes.ok [1] (0 : Nat), .err (.other 3)] =
      some ([], some (.other 3)) := by
  refine ⟨by decide, ?_, ?_⟩
  · exact fun h => (deadline_absorbed_and_error_discards [] none []
      (mkMux Nat "unix") (fun _ => none) [] [] []
      [RRes.ok [1] (0 : Nat), .err (.other 3)] [] [] [] (.other 3) (.other 3)
      none (by decide)).2.2.1 h
  · exact (deadline_absorbed_and_error_discards [] none []
      (mkMux Nat "unix") (fun _ => none) [] [] []
      [RRes.ok [1] (0 : Nat), .err (.other 3)] [] [] [] (.other 3)
      (.other 3) none (by decide)).2.2.2 (by decide)

lemma perTagBytes_append {T : Type} [DecidableEq T] (u : T) :
    ∀ l1 l2 : List (TaggedData T),
      perTagBytes u (l1 ++ l2) = perTagBytes u l1 ++ perTagBytes u l2
  | [], l2 => by simp [perTagBytes]
  | td :: rest, l2 => by
    simp [perTagBytes, perTagBytes_append u rest l2]

lemma coalesce_chain {T : Type} [DecidableEq T] (acc : List (TaggedData T))
    (tag : T) (data : List Nat)
    (h : List.Chain' (fun a b => a.tag ≠ b.tag) acc) :
    List.Chain' (fun a b => a.tag ≠ b.tag) (coalesce acc tag data) := by
  rcases hlast : acc.getLast? with _ | prev
  · have : acc = [] := List.getLast?_eq_none_iff.mp hlast
    subst this
    simp [coalesce]
  · have hdec : acc.dropLast ++ [prev] = acc :=
      List.dropLast_append_getLast? prev hlast
    by_cases htag : prev.tag = tag
    · have hco : coalesce acc tag data =
          acc.dropLast ++ [⟨prev.tag, prev.data ++ data⟩] := by
        simp [coalesce, hlast, htag]
      rw [hco]
      rw [← hdec] at h
      rw [List.chain'_append] at h ⊢
      refine ⟨h.1, List.chain'_singleton _, ?_⟩
      intro x hx y hy
      simp at hy
      subst hy
      have := h.2.2 x hx prev (by simp)
      simpa using this
    · have hco : coalesce acc tag data = acc ++ [⟨tag, data⟩] := by
        simp [coalesce, hlast, htag]
      rw [hco]
      rw [List.chain'_append]
      refine ⟨h, List.chain'_singleton _, ?_⟩
      intro x hx y hy
      simp at hy
      subst hy
      rw [hlast] at hx
      simp at hx
      subst hx
      simpa using htag

lemma coalesce_perTagBytes {T : Type} [DecidableEq T] (u : T)
    (acc : List (TaggedData T)) (tag : T) (data : List Nat) :
    perTagBytes u (coalesce acc tag data) =
      perTagBytes u acc ++ (if tag = u then data else []) := by
  rcases hlast : acc.getLast? with _ | prev
  · have : acc = [] := List.getLast?_eq_none_iff.mp hlast
    subst this
    simp [coalesce, perTagBytes]
  · have hdec : acc.dropLast ++ [prev] = acc :=
      List.dropLast_append_getLast? prev hlast
    by_cases htag : prev.tag = tag
    · have hco : coalesce acc tag data =
          acc.dropLast ++ [⟨prev.tag, prev.data ++ data⟩] := by
        simp [coalesce, hlast, htag]
      rw [hco]
      conv_rhs => rw [← hdec]
      rw [perTagBytes_append, perTagBytes_append]
      by_cases hu : tag = u
      · simp [perTagBytes, htag, hu]
      · have hpu : ¬ prev.tag = u := by rw [htag]; exact hu
        simp [perTagBytes, hpu, hu]
    · have hco : coalesce acc tag data = acc ++ [⟨tag, data⟩] := by
        simp [coalesce, hlast, htag]
      rw [hco, perTagBytes_append]
      simp [perTagBytes]

lemma readUntilLoop_accum {T : Type} [DecidableEq T] :
    ∀ (reads : List (RRes T)) (acc out : List (TaggedData T)),
      readUntilLoop reads acc = some (out, none) →
      (List.Chain' (fun a b => a.tag ≠ b.tag) acc →
        List.Chain' (fun a b => a.tag ≠ b.tag) out) ∧
      ∀ u, perTagBytes u out = perTagBytes u acc ++ okBytes u reads
  | [], acc, out => by simp [readUntilLoop]
  | r :: rest, acc, out => by
    intro heq
    rcases r with ⟨d, t⟩ | e | _
    · have ih := readUntilLoop_accum rest (coalesce acc t d) out heq
      refine ⟨fun hacc => ih.1 (coalesce_chain acc t d hacc), fun u => ?_⟩
      rw [ih.2 u, coalesce_perTagBytes, okBytes, List.append_assoc]
    · by_cases he : e = .eof
      · subst he
        simp [readUntilLoop] at heq
        subst heq
        exact ⟨fun hacc => hacc, fun u => by simp [okBytes]⟩
      · simp [readUntilLoop, he] at heq
    · simp [readUntilLoop] at heq

/-- C4: a session accumulates each successfully read chunk as a new entry
except that a chunk whose tag equals the immediately preceding entry's tag
is concatenated onto it; consequently the accumulated sequence never has
two adjacent entries with the same tag, and the bytes attributed to every
tag are exactly the bytes of that tag's successful reads, in order. -/
theorem readUntil_coalesce_adjacent_distinct {T : Type} [DecidableEq T]
    (reads : List (RRes T)) (out : List (TaggedData T)) (u : T)
    (h : readUntilLoop reads [] = some (out, none)) :
    List.Chain' (fun a b => a.tag ≠ b.tag) out ∧
    perTagBytes u out = okBytes u reads := by
  have := readUntilLoop_accum reads [] out h
  exact ⟨this.1 (List.chain'_nil), by simpa [perTagBytes] using this.2 u⟩

/-- Witness for C4: three reads on two tags, the middle two coalescing,
followed by end-of-stream. -/
theorem readUntil_coalesce_adjacent_distinct_witness :
    readUntilLoop [RRes.ok [1] (0 : Nat), .ok [2] 1, .ok [3] 1, .err .eof] [] =
      some ([⟨0, [1]⟩, ⟨1, [2, 3]⟩], none) ∧
    (List.Chain' (fun a b => a.tag ≠ b.tag)
        [(⟨0, [1]⟩ : TaggedData Nat), ⟨1, [2, 3]⟩] ∧
      perTagBytes 1 [(⟨0, [1]⟩ : TaggedData Nat), ⟨1, [2, 3]⟩] =
        okBytes 1 [RRes.ok [1] (0 : Nat), .ok [2] 1, .ok [3] 1, .err .eof]) := by
  refine ⟨by decide, ?_⟩
  exact readUntil_coalesce_adjacent_distinct
    [RRes.ok [1] (0 : Nat), .ok [2] 1, .ok [3] 1, .err .eof]
    [⟨0, [1]⟩, ⟨1, [2, 3]⟩] 1 (by decide)

lemma readConn_eof_dlAfterCancel {T : Type} [DecidableEq T] [Inhabited T]
    (senders : List (T × Nat)) (remote : Option Nat) :
    ∀ evs : List NetEvent,
      (∀ e ∈ evs, e.outcome ≠ .fail .eof) →
      readConn (T := T) senders remote evs = .err .eof →
      dlAfterCancel evs = true
  | [], _, heq => by simp [readConn] at heq
  | e :: rest, hnoeof, heq => by
    rcases e with ⟨outc, done⟩
    rcases outc with ⟨d, addr⟩ | err
    · simp [readConn] at heq
    · by_cases hdl : err = .deadlineExceeded
      · subst hdl
        by_cases hd : done
        · subst hd
          simp [dlAfterCancel]
        · simp only [Bool.not_eq_true] at hd
          subst hd
          rw [show readConn (T := T) senders remote
              (⟨.fail .deadlineExceeded, false⟩ :: rest) = readConn senders remote rest
            from by simp [readConn]] at heq
          have := readConn_eof_dlAfterCancel senders remote rest
            (fun x hx => hnoeof x (List.mem_cons_of_mem _ hx)) heq
          simp [dlAfterCancel] at this ⊢
          exact this
      · simp [readConn, hdl] at heq
        exact absurd (by rw [heq]) (hnoeof ⟨.fail err, done⟩ (List.mem_cons_self _ _))

lemma connTimedOut_tail (c : Nat) (p : Poll) (rest : List Poll)
    (h : connTimedOut c rest = true) : connTimedOut c (p :: rest) = true := by
  rcases p with ⟨c2, evs⟩ | _ | _ <;> simp [connTimedOut, h]

lemma readLoop_eof_marks {T : Type} [DecidableEq T] [Inhabited T]
    (senders : List (T × Nat)) (remotes : Nat → Option Nat) (conns : List Nat) :
    ∀ (polls : List Poll) (Q : Nat → Prop) (eofSet : List Nat),
      (∀ c2 evs2, Poll.recv c2 evs2 ∈ polls → ∀ e ∈ evs2, e.outcome ≠ .fail .eof) →
      (∀ x ∈ eofSet, Q x) →
      (readLoop (T := T) senders remotes conns eofSet polls).1 = .err .eof →
      ∀ c ∈ conns, Q c ∨ connTimedOut c polls = true
  | [], Q, eofSet, _, _, heq => by simp [readLoop] at heq
  | .recv c2 evs :: rest, Q, eofSet, hnoeof, hQ, heq => by
    intro c hc
    rcases hr : readConn (T := T) senders (remotes c2) evs with _ | e | _
    · simp [readLoop, hr] at heq
    · rcases e with _ | _ | _ | _ | code
      · simp [readLoop, hr] at heq
      · rw [show (readLoop (T := T) senders remotes conns eofSet
            (.recv c2 evs :: rest)) =
            readLoop senders remotes conns (c2 :: eofSet) rest
          from by simp [readLoop, hr]] at heq
        have hdl : dlAfterCancel evs = true :=
          readConn_eof_dlAfterCancel senders (remotes c2) evs
            (hnoeof c2 evs (List.mem_cons_self _ _)) hr
        have ih := readLoop_eof_marks senders remotes conns rest
          (fun x => Q x ∨ x = c2) (c2 :: eofSet)
          (fun c3 evs3 hm => hnoeof c3 evs3 (List.mem_cons_of_mem _ hm))
          (by
            intro x hx
            rcases List.mem_cons.mp hx with h1 | h2
            · exact Or.inr h1
            · exact Or.inl (hQ x h2))
          heq c hc
        rcases ih with (hq | hc2) | ht
        · exact Or.inl hq
        · subst hc2
          refine Or.inr ?_
          simp [connTimedOut, hdl]
        · exact Or.inr (connTimedOut_tail c _ rest ht)
      · simp [readLoop, hr] at heq
      · simp [readLoop, hr] at heq
      · simp [readLoop, hr] at heq
    · simp [readLoop, hr] at heq
  | .ctxDone :: rest, Q, eofSet, hnoeof, hQ, heq => by
    intro c hc
    by_cases hall : conns.all (fun c3 => c3 ∈ eofSet)
    · have hmem : c ∈ eofSet := by
        have := List.all_eq_true.mp hall c hc
        simpa using this
      exact Or.inl (hQ c hmem)
    · rw [show (readLoop (T := T) senders remotes conns eofSet (.ctxDone :: rest)) =
          readLoop senders remotes conns eofSet rest
        from by simp [readLoop, hall]] at heq
      have ih := readLoop_eof_marks senders remotes conns rest Q eofSet
        (fun c3 evs3 hm => hnoeof c3 evs3 (List.mem_cons_of_mem _ hm)) hQ heq c hc
      rcases ih with hq | ht
      · exact Or.inl hq
      · exact Or.inr (connTimedOut_tail c _ rest ht)
  | .idle :: rest, Q, eofSet, hnoeof, hQ, heq => by
    intro c hc
    rw [show (readLoop (T := T) senders remotes conns eofSet (.idle :: rest)) =
        readLoop senders remotes conns eofSet rest
      from by simp [readLoop]] at heq
    have ih := readLoop_eof_marks senders remotes conns rest Q eofSet
      (fun c3 evs3 hm => hnoeof c3 evs3 (List.mem_cons_of_mem _ hm)) hQ heq c hc
    rcases ih with hq | ht
    · exact Or.inl hq
    · exact Or.inr (connTimedOut_tail c _ rest ht)

/-- C2: `Read` returns the `io.EOF` end-of-stream sentinel only when, within
the active cancellation scope, every registered receive connection has
independently finished a read in deadline-exceeded after the scope's
cancellation was signaled (a previously marked connection, hypothesis `Q`,
did so in an earlier `Read` of the same scope); a deadline-exceeded
observed before cancellation contributes nothing — the per-connection loop
simply retries.  The hypotheses state that the transport itself delivers no
socket-level `io.EOF` while the multiplexer holds the sender write ends
open. -/
theorem read_eof_requires_deadline_after_cancel {T : Type} [DecidableEq T]
    [Inhabited T] (senders : List (T × Nat)) (remote : Option Nat)
    (evs : List NetEvent) (s : MuxState T) (remotes : Nat → Option Nat)
    (eofSet : List Nat) (singleEvs : List NetEvent) (polls : List Poll)
    (Q : Nat → Prop) (c : Nat)
    (hnoeof1 : ∀ e ∈ evs, e.outcome ≠ .fail .eof)
    (hnoeof2 : ∀ e ∈ singleEvs, e.outcome ≠ .fail .eof)
    (hnoeof3 : ∀ c2 evs2, Poll.recv c2 evs2 ∈ polls →
      ∀ e ∈ evs2, e.outcome ≠ .fail .eof)
    (hQ : ∀ x ∈ eofSet, Q x) (hc : c ∈ s.conns) :
    (readConn (T := T) senders remote evs = .err .eof →
      dlAfterCancel evs = true) ∧
    readConn (T := T) senders remote (⟨.fail .deadlineExceeded, false⟩ :: evs) =
      readConn senders remote evs ∧
    (muxRead s remotes eofSet singleEvs polls = .err .eof →
      (s.conns.length = 1 ∧ dlAfterCancel singleEvs = true) ∨
      (2 ≤ s.conns.length ∧ (Q c ∨ connTimedOut c polls = true))) := by
  refine ⟨readConn_eof_dlAfterCancel senders remote evs hnoeof1,
    by simp [readConn], fun heq => ?_⟩
  unfold muxRead at heq
  by_cases hcl : s.closed
  · simp [hcl] at heq
  · by_cases h0 : s.conns.length = 0
    · simp [hcl, h0] at heq
    · by_cases h1 : s.conns.length = 1
      · rw [if_neg hcl, if_neg h0, if_pos h1] at heq
        exact Or.inl ⟨h1,
          readConn_eof_dlAfterCancel s.senders (remotes (s.conns.headD 0))
            singleEvs hnoeof2 heq⟩
      · rw [if_neg hcl, if_neg h0, if_neg h1] at heq
        exact Or.inr ⟨by omega,
          readLoop_eof_marks s.senders remotes s.conns polls Q eofSet
            hnoeof3 hQ heq c hc⟩

/-- Witness for C2: two stream connections; each worker delivers a
deadline-exceeded-after-cancel `io.EOF`, and the cancellation poll then
resolves `Read` into end-of-stream. -/
theorem read_eof_requires_deadline_after_cancel_witness :
    muxRead (⟨false, true, "unix", [0, 1], [], 0⟩ : MuxState Nat)
      (fun _ => none) []
      [⟨.fail .deadlineExceeded, true⟩]
      [.recv 0 [⟨.fail .deadlineExceeded, true⟩],
        .recv 1 [⟨.fail .deadlineExceeded, true⟩], .ctxDone] = .err .eof ∧
    (((⟨false, true, "unix", [0, 1], [], 0⟩ : MuxState Nat).conns.length = 1 ∧
        dlAfterCancel [⟨.fail .deadlineExceeded, true⟩] = true) ∨
      (2 ≤ (⟨false, true, "unix", [0, 1], [], 0⟩ : MuxState Nat).conns.length ∧
        (False ∨ connTimedOut 0
          [.recv 0 [⟨.fail .deadlineExceeded, true⟩],
            .recv 1 [⟨.fail .deadlineExceeded, true⟩], .ctxDone] = true))) := by
  refine ⟨by decide, ?_⟩
  exact (read_eof_requires_deadline_after_cancel [] none
    [⟨.fail .deadlineExceeded, true⟩]
    (⟨false, true, "unix", [0, 1], [], 0⟩ : MuxState Nat) (fun _ => none) []
    [⟨.fail .deadlineExceeded, true⟩]
    [.recv 0 [⟨.fail .deadlineExceeded, true⟩],
      .recv 1 [⟨.fail .deadlineExceeded, true⟩], .ctxDone]
    (fun _ => False) 0 (by decide)
    (by decide)
    (by
      intro c2 evs2 hm e he
      simp at hm
      rcases hm with ⟨rfl, rfl⟩ | ⟨rfl, rfl⟩ <;>
        · simp at he
          subst he
          decide)
    (by simp) (by decide)).2.2 (by decide)

lemma repairStep_absorb {T : Type} [DecidableEq T] [Inhabited T]
    (lastIdx : List (T × Nat)) (i : Nat) (td : TaggedData T) (st : RepairSt T)
    (h : st.panicked = true) : repairStep lastIdx i td st = st := by
  simp [repairStep, h]

lemma repairGo_absorb {T : Type} [DecidableEq T] [Inhabited T]
    (lastIdx : List (T × Nat)) :
    ∀ (l : List (TaggedData T)) (i : Nat) (st : RepairSt T),
      st.panicked = true → repairGo lastIdx i l st = st
  | [], _, st, _ => rfl
  | td :: rest, i, st, h => by
    rw [repairGo, repairStep_absorb lastIdx i td st h,
      repairGo_absorb lastIdx rest (i + 1) st h]

lemma repairStep_empty_data {T : Type} [DecidableEq T] [Inhabited T]
    (lastIdx : List (T × Nat)) (i : Nat) (td : TaggedData T) (st : RepairSt T)
    (h : td.data = []) : (repairStep lastIdx i td st).panicked = true := by
  by_cases hp : st.panicked
  · rw [repairStep_absorb lastIdx i td st hp]
    exact hp
  · simp [repairStep, hp, h]

lemma repairGo_empty_panics {T : Type} [DecidableEq T] [Inhabited T]
    (lastIdx : List (T × Nat)) :
    ∀ (l : List (TaggedData T)) (i : Nat) (st : RepairSt T) (td : TaggedData T),
      td ∈ l → td.data = [] → (repairGo lastIdx i l st).panicked = true
  | td0 :: rest, i, st, td, hmem, hemp => by
    rcases List.mem_cons.mp hmem with h | h
    · subst h
      rw [repairGo, repairGo_absorb lastIdx rest (i + 1) _
        (repairStep_empty_data lastIdx i td st hemp)]
      exact repairStep_empty_data lastIdx i td st hemp
    · exact repairGo_empty_panics lastIdx rest (i + 1)
        (repairStep lastIdx i td0 st) td h hemp

/-- C9: the reassembly pass is not total beyond chunk sequences whose every
payload is non-empty: the trailing-newline test indexes `data[len(data)-1]`
with no emptiness guard, so any input containing a chunk with an empty
payload makes `repairTruncatedReads` panic (modelled as `none`), whatever
the sender count. -/
theorem repair_empty_payload_panics {T : Type} [DecidableEq T] [Inhabited T]
    (numSenders : Nat) (input : List (TaggedData T)) (td : TaggedData T)
    (hmem : td ∈ input) (hemp : td.data = []) :
    repairTruncatedReads numSenders input = none := by
  unfold repairTruncatedReads
  rw [if_pos]
  exact repairGo_empty_panics _ input 0 _ td hmem hemp

/-- Witness for C9: a session with one healthy chunk and one empty-payload
chunk panics. -/
theorem repair_empty_payload_panics_witness :
    ((⟨1, []⟩ : TaggedData Nat) ∈ [(⟨0, [7, 10]⟩ : TaggedData Nat), ⟨1, []⟩] ∧
      (⟨1, []⟩ : TaggedData Nat).data = []) ∧
    repairTruncatedReads 2 [(⟨0, [7, 10]⟩ : TaggedData Nat), ⟨1, []⟩] = none := by
  exact ⟨⟨by decide, rfl⟩,
    repair_empty_payload_panics 2 [(⟨0, [7, 10]⟩ : TaggedData Nat), ⟨1, []⟩]
      ⟨1, []⟩ (by decide) rfl⟩

/-- C1: evaluation of the reassembly pass at a realistic completed session
sequence — two registered senders, alternating non-terminated fragments
`0:[1] 1:[2] 0:[3] 1:[4] 0:[5]`, no two adjacent chunks sharing a tag,
every payload non-empty.  The pass panics (`none`): at the final flush of
tag 0 the pending queue holds the two fragments `[1]` and `[3]`; removing
the first while ranging shifts the second onto a stale index, the rewritten
payload drops fragment `[1]`, and the second removal slices out of range.
No output exists, so the per-tag byte-preservation guarantee fails. -/
theorem repair_panics_on_failing_input :
    repairTruncatedReads 2
      [(⟨0, [1]⟩ : TaggedData Nat), ⟨1, [2]⟩, ⟨0, [3]⟩, ⟨1, [4]⟩, ⟨0, [5]⟩] =
      none := by decide

lemma flushIter_panic_absorb {T : Type} [DecidableEq T] [Inhabited T]
    (t : T) (o : List Nat) :
    ∀ (idxs : List Nat) (st : FlushSt T),
      st.panicked = true → flushIter t o idxs st = st
  | [], _, _ => rfl
  | i :: rest, st, h => by simp [flushIter, h]

lemma flushIter_append {T : Type} [DecidableEq T] [Inhabited T]
    (t : T) (o : List Nat) :
    ∀ (l1 l2 : List Nat) (st : FlushSt T),
      flushIter t o (l1 ++ l2) st = flushIter t o l2 (flushIter t o l1 st)
  | [], l2, st => rfl
  | i :: rest, l2, st => by
    by_cases hp : st.panicked
    · rw [show (i :: rest) ++ l2 = i :: (rest ++ l2) from rfl,
        flushIter_panic_absorb t o (i :: (rest ++ l2)) st hp,
        flushIter_panic_absorb t o (i :: rest) st hp,
        flushIter_panic_absorb t o l2 st hp]
    · by_cases hm : (st.arr.getD i ⟨default, []⟩).tag = t
      · have hm2 : (st.arr[i]?.getD (⟨default, []⟩ : TaggedData T)).tag = t := by
          rw [← List.getD_eq_getElem?_getD]
          exact hm
        by_cases hl : st.len < i + 1
        · have e1 : ∀ l : List Nat, flushIter t o (i :: l) st =
              flushIter t o l { st with acc := (st.arr.getD i ⟨default, []⟩).data ++ o,
                                        panicked := true } := by
            intro l
            simp [flushIter, hp, hm2, hl]
          rw [show (i :: rest) ++ l2 = i :: (rest ++ l2) from rfl, e1, e1]
          exact flushIter_append t o rest l2 _
        · have e1 : ∀ l : List Nat, flushIter t o (i :: l) st =
              flushIter t o l { st with arr := removeShift st.arr i st.len,
                                        len := st.len - 1,
                                        acc := (st.arr.getD i ⟨default, []⟩).data ++ o } := by
            intro l
            simp [flushIter, hp, hm2, hl]
          rw [show (i :: rest) ++ l2 = i :: (rest ++ l2) from rfl, e1, e1]
          exact flushIter_append t o rest l2 _
      · have hm2 : ¬ (st.arr[i]?.getD (⟨default, []⟩ : TaggedData T)).tag = t := by
          rw [← List.getD_eq_getElem?_getD]
          exact hm
        have e1 : ∀ l : List Nat, flushIter t o (i :: l) st = flushIter t o l st := by
          intro l
          simp [flushIter, hp, hm2]
        rw [show (i :: rest) ++ l2 = i :: (rest ++ l2) from rfl, e1, e1]
        exact flushIter_append t o rest l2 st

lemma flushIter_skips {T : Type} [DecidableEq T] [Inhabited T]
    (t : T) (o : List Nat) :
    ∀ (idxs : List Nat) (st : FlushSt T),
      (∀ i ∈ idxs, (st.arr.getD i ⟨default, []⟩).tag ≠ t) →
      flushIter t o idxs st = st
  | [], _, _ => rfl
  | i :: rest, st, h => by
    by_cases hp : st.panicked
    · exact flushIter_panic_absorb t o (i :: rest) st hp
    · have hm := h i (List.mem_cons_self _ _)
      have hm2 : ¬ (st.arr[i]?.getD (⟨default, []⟩ : TaggedData T)).tag = t := by
        rw [← List.getD_eq_getElem?_getD]
        exact hm
      have e1 : flushIter t o (i :: rest) st = flushIter t o rest st := by
        simp [flushIter, hp, hm2]
      rw [e1]
      exact flushIter_skips t o rest st (fun j hj => h j (List.mem_cons_of_mem _ hj))

lemma getD_append_left {T : Type} [Inhabited T] (l1 l2 : List (TaggedData T))
    (i : Nat) (hi : i < l1.length) :
    (l1 ++ l2).getD i ⟨default, []⟩ = l1.getD i ⟨default, []⟩ := by
  rw [List.getD_eq_getElem?_getD, List.getD_eq_getElem?_getD,
    List.getElem?_append, if_pos hi]

lemma getD_mem {T : Type} [Inhabited T] (l : List (TaggedData T)) (i : Nat)
    (hi : i < l.length) : l.getD i ⟨default, []⟩ ∈ l := by
  rw [List.getD_eq_getElem?_getD, List.getElem?_eq_getElem hi]
  exact List.getElem_mem hi

lemma flushIter_single {T : Type} [DecidableEq T] [Inhabited T]
    (t : T) (o : List Nat) (pre post2 : List (TaggedData T)) (m : TaggedData T)
    (hm : m.tag = t) (hpre : ∀ bd ∈ pre, bd.tag ≠ t)
    (hpost : ∀ bd ∈ post2, bd.tag ≠ t) :
    ∃ z : TaggedData T,
      flushIter t o (List.range (pre ++ m :: post2).length)
        ⟨pre ++ m :: post2, (pre ++ m :: post2).length, o, false⟩ =
      ⟨(pre ++ post2) ++ [z], pre.length + post2.length, m.data ++ o, false⟩ := by
  have hlen : (pre ++ m :: post2).length = pre.length + (post2.length + 1) := by
    simp
  obtain ⟨z, hz⟩ : ∃ z, (m :: post2).drop post2.length = [z] :=
    List.length_eq_one.mp (by simp [List.length_drop])
  have hzmem : post2 ≠ [] → z ∈ post2 := by
    intro hne
    obtain ⟨k, hk⟩ : ∃ k, post2.length = k + 1 :=
      ⟨post2.length - 1, by
        have : 0 < post2.length := List.length_pos.mpr hne
        omega⟩
    rw [hk, List.drop_succ_cons] at hz
    exact List.mem_of_mem_drop (hz ▸ List.mem_singleton_self z)
  have hmid : List.drop (pre.length + 1) (pre ++ m :: post2) = post2 := by
    rw [show List.drop (pre.length + 1) (pre ++ m :: post2) =
        List.drop 1 (m :: post2) from List.drop_append 1]
    simp
  have hend : List.drop ((pre ++ m :: post2).length - 1) (pre ++ m :: post2) =
      [z] := by
    rw [show (pre ++ m :: post2).length - 1 = pre.length + post2.length from by
      simp]
    rw [show List.drop (pre.length + post2.length) (pre ++ m :: post2) =
        List.drop post2.length (m :: post2) from List.drop_append post2.length]
    exact hz
  have hrs : removeShift (pre ++ m :: post2) pre.length
      (pre ++ m :: post2).length = (pre ++ post2) ++ [z] := by
    unfold removeShift
    rw [List.take_left, List.take_length, hmid, hend, List.append_assoc]
  have hrange : List.range (pre ++ m :: post2).length =
      List.range pre.length ++
        (pre.length :: List.map (fun x => pre.length + Nat.succ x)
          (List.range post2.length)) := by
    rw [hlen, List.range_add, List.range_succ_eq_map, List.map_cons,
      Nat.add_zero, List.map_map]
    rfl
  have h1 : flushIter t o (List.range pre.length)
      (⟨pre ++ m :: post2, (pre ++ m :: post2).length, o, false⟩ : FlushSt T) =
      ⟨pre ++ m :: post2, (pre ++ m :: post2).length, o, false⟩ := by
    refine flushIter_skips t o _ _ ?_
    intro i hi
    have hi2 : i < pre.length := List.mem_range.mp hi
    show ((pre ++ m :: post2).getD i ⟨default, []⟩).tag ≠ t
    rw [getD_append_left pre (m :: post2) i hi2]
    exact hpre _ (getD_mem pre i hi2)
  have hbd2 : ((pre ++ m :: post2)[pre.length]?.getD
      (⟨default, []⟩ : TaggedData T)) = m := by
    rw [List.getElem?_append_right (Nat.le_refl _)]
    simp
  have hlen1 : (pre ++ m :: post2).length - 1 = pre.length + post2.length := by
    simp
  have hstep : ∀ l : List Nat,
      flushIter t o (pre.length :: l)
        (⟨pre ++ m :: post2, (pre ++ m :: post2).length, o, false⟩ : FlushSt T) =
      flushIter t o l
        ⟨(pre ++ post2) ++ [z], pre.length + post2.length, m.data ++ o, false⟩ := by
    intro l
    have hnl : ¬ ((pre ++ m :: post2).length < pre.length + 1) := by
      simp only [List.length_append, List.length_cons]
      omega
    have hmt : ((pre ++ m :: post2)[pre.length]?.getD
        (⟨default, []⟩ : TaggedData T)).tag = t := by
      rw [hbd2]
      exact hm
    have hbd3 : (pre ++ m :: post2).getD pre.length
        (⟨default, []⟩ : TaggedData T) = m := by
      rw [List.getD_eq_getElem?_getD]
      exact hbd2
    simp only [flushIter, Bool.false_eq_true, if_false, hmt, if_true, hnl,
      hbd2, ite_true, ite_false, eq_self_iff_true]
    rw [hrs, hlen1, hbd3, if_pos hm]
  have h3 : flushIter t o
      (List.map (fun x => pre.length + Nat.succ x) (List.range post2.length))
      (⟨(pre ++ post2) ++ [z], pre.length + post2.length, m.data ++ o, false⟩ :
        FlushSt T) =
      ⟨(pre ++ post2) ++ [z], pre.length + post2.length, m.data ++ o, false⟩ := by
    refine flushIter_skips t o _ _ ?_
    intro idx hidx
    obtain ⟨j, hj, rfl⟩ := List.mem_map.mp hidx
    have hj2 : j < post2.length := List.mem_range.mp hj
    have hne : post2 ≠ [] := by
      intro hcontra
      rw [hcontra] at hj2
      simp at hj2
    show ((((pre ++ post2) ++ [z]).getD (pre.length + Nat.succ j)
      ⟨default, []⟩)).tag ≠ t
    by_cases hlt : Nat.succ j < post2.length
    · have hlt2 : pre.length + Nat.succ j < (pre ++ post2).length := by
        simp only [List.length_append]
        omega
      rw [getD_append_left (pre ++ post2) [z] _ hlt2]
      have hge : pre.length ≤ pre.length + Nat.succ j := Nat.le_add_right _ _
      rw [List.getD_eq_getElem?_getD, List.getElem?_append_right hge]
      have hsub : pre.length + Nat.succ j - pre.length = Nat.succ j := by omega
      rw [hsub, List.getElem?_eq_getElem hlt]
      exact hpost _ (List.getElem_mem hlt)
    · have hidx2 : pre.length + Nat.succ j = (pre ++ post2).length := by
        simp only [List.length_append]
        omega
      rw [List.getD_eq_getElem?_getD, hidx2,
        List.getElem?_append_right (Nat.le_refl _)]
      simp only [Nat.sub_self, List.getElem?_cons_zero, Option.getD_some]
      exact hpost z (hzmem hne)
  refine ⟨z, ?_⟩
  rw [hrange, flushIter_append, h1, hstep, h3]

lemma countTag_zero_iff {T : Type} [DecidableEq T] (buf : List (TaggedData T))
    (t : T) : countTag buf t = 0 ↔ ∀ bd ∈ buf, bd.tag ≠ t := by
  simp [countTag, List.length_eq_zero, List.filter_eq_nil_iff]

lemma countTag_one_decomp {T : Type} [DecidableEq T] :
    ∀ (buf : List (TaggedData T)) (t : T), countTag buf t = 1 →
      ∃ pre m post2, buf = pre ++ m :: post2 ∧ m.tag = t ∧
        (∀ bd ∈ pre, bd.tag ≠ t) ∧ (∀ bd ∈ post2, bd.tag ≠ t)
  | [], t, h => by simp [countTag] at h
  | bd :: rest, t, h => by
    by_cases hbd : bd.tag = t
    · have h2 : countTag (bd :: rest) t = countTag rest t + 1 := by
        simp [countTag, List.filter_cons, hbd]
      have hrest : countTag rest t = 0 := by omega
      exact ⟨[], bd, rest, by simp, hbd, by simp,
        (countTag_zero_iff rest t).mp hrest⟩
    · have h2 : countTag (bd :: rest) t = countTag rest t := by
        simp [countTag, List.filter_cons, hbd]
      have hrest : countTag rest t = 1 := by omega
      obtain ⟨pre, m, post2, heq, hm, hpre, hpost⟩ :=
        countTag_one_decomp rest t hrest
      refine ⟨bd :: pre, m, post2, by rw [heq, List.cons_append], hm, ?_, hpost⟩
      intro x hx
      rcases List.mem_cons.mp hx with h1 | h1
      · subst h1
        exact hbd
      · exact hpre x h1

lemma find?_append_none {α : Type} (p : α → Bool) :
    ∀ (l1 l2 : List α), (∀ x ∈ l1, p x = false) →
      List.find? p (l1 ++ l2) = List.find? p l2
  | [], l2, _ => rfl
  | a :: rest, l2, h => by
    rw [List.cons_append, List.find?_cons_of_neg _ (by
      simp [h a (List.mem_cons_self _ _)])]
    exact find?_append_none p rest l2 (fun x hx => h x (List.mem_cons_of_mem _ hx))

lemma repairStep_cases {T : Type} [DecidableEq T] [Inhabited T]
    (li : List (T × Nat)) (i : Nat) (td : TaggedData T) (st : RepairSt T)
    (hst : st.panicked = false) (hne : td.data ≠ [])
    (hpost : (repairStep li i td st).panicked = false) :
    (st.result.length < (repairStep li i td st).result.length ↔
      codeCond li i td st.buffer) ∧
    (¬ codeCond li i td st.buffer →
      repairStep li i td st = { st with buffer := st.buffer ++ [td] }) ∧
    (codeCond li i td st.buffer → countTag st.buffer td.tag ≤ 1 →
      repairStep li i td st =
        { st with buffer := st.buffer.filter (fun bd => bd.tag ≠ td.tag),
                  result := st.result ++
                    [⟨td.tag, headMatchData st.buffer td.tag ++ td.data⟩] }) := by
  obtain ⟨b, hb⟩ : ∃ b, td.data.getLast? = some b := by
    cases h : td.data.getLast? with
    | none => exact absurd (List.getLast?_eq_none_iff.mp h) hne
    | some b => exact ⟨b, rfl⟩
  have hcond : codeCond li i td st.buffer ↔
      ((b = 10 ∧ headTagD st.buffer td.tag = td.tag) ∨
        (alookup td.tag li).getD 0 = i) := by
    unfold codeCond
    rw [hb]
    simp
  by_cases hc : (b = 10 ∧ headTagD st.buffer td.tag = td.tag) ∨
      (alookup td.tag li).getD 0 = i
  · set F := flushIter td.tag td.data (List.range st.buffer.length)
      (⟨st.buffer, st.buffer.length, td.data, false⟩ : FlushSt T) with hF
    by_cases hfp : F.panicked
    · have hbad : repairStep li i td st = { st with panicked := true } := by
        simp [repairStep, hst, hb, hc, ← hF, hfp]
      rw [hbad] at hpost
      simp at hpost
    · have hstep : repairStep li i td st =
          { st with buffer := F.arr.take F.len,
                    result := st.result ++ [⟨td.tag, F.acc⟩] } := by
        simp [repairStep, hst, hb, hc, ← hF, hfp]
      refine ⟨?_, fun hnc => absurd (hcond.mpr hc) hnc, fun _ hcount => ?_⟩
      · rw [hstep]
        exact iff_of_true (by simp) (hcond.mpr hc)
      · rcases Nat.le_one_iff_eq_zero_or_eq_one.mp hcount with h0 | h1
        · have hall : ∀ bd ∈ st.buffer, bd.tag ≠ td.tag :=
            (countTag_zero_iff _ _).mp h0
          have hFeq : F = ⟨st.buffer, st.buffer.length, td.data, false⟩ := by
            rw [hF]
            refine flushIter_skips _ _ _ _ ?_
            intro j hj
            exact hall _ (getD_mem st.buffer j (List.mem_range.mp hj))
          have hfilter : st.buffer.filter (fun bd => bd.tag ≠ td.tag) =
              st.buffer := by
            rw [List.filter_eq_self]
            intro a ha
            simpa using hall a ha
          have hfind : headMatchData st.buffer td.tag = [] := by
            unfold headMatchData
            rw [List.find?_eq_none.mpr (by
              intro x hx
              simpa using hall x hx)]
          rw [hstep, hFeq, hfilter, hfind]
          simp [List.take_length]
        · obtain ⟨pre, mm, post2, hbuf, hmt, hpre, hpost2⟩ :=
            countTag_one_decomp _ _ h1
          obtain ⟨z, hfi⟩ :=
            flushIter_single td.tag td.data pre post2 mm hmt hpre hpost2
          have hFeq : F = ⟨(pre ++ post2) ++ [z],
              pre.length + post2.length, mm.data ++ td.data, false⟩ := by
            rw [hF, hbuf]
            exact hfi
          have htake : ((pre ++ post2) ++ [z]).take
              (pre.length + post2.length) = pre ++ post2 := by
            rw [show pre.length + post2.length = (pre ++ post2).length from by
              simp, List.take_left]
          have hfpre : pre.filter (fun bd => bd.tag ≠ td.tag) = pre := by
            rw [List.filter_eq_self]
            intro a ha
            simpa using hpre a ha
          have hfpost : post2.filter (fun bd => bd.tag ≠ td.tag) = post2 := by
            rw [List.filter_eq_self]
            intro a ha
            simpa using hpost2 a ha
          have hfilter : st.buffer.filter (fun bd => bd.tag ≠ td.tag) =
              pre ++ post2 := by
            rw [hbuf, List.filter_append, List.filter_cons, hfpre, hfpost]
            simp [hmt]
          have hfind : headMatchData st.buffer td.tag = mm.data := by
            unfold headMatchData
            rw [hbuf, find?_append_none _ pre _ (by
              intro x hx
              simp [hpre x hx]),
              List.find?_cons_of_pos _ (by simp [hmt])]
          rw [hstep, hFeq, hfilter, hfind, htake]
  · have hstep : repairStep li i td st = { st with buffer := st.buffer ++ [td] } := by
      simp [repairStep, hst, hb, hc]
    refine ⟨?_, fun _ => hstep, fun hcc _ => absurd (hcond.mp hcc) hc⟩
    rw [hstep]
    exact iff_of_false (by simp) (fun hcc => hc (hcond.mp hcc))

lemma repairGo_append {T : Type} [DecidableEq T] [Inhabited T]
    (li : List (T × Nat)) :
    ∀ (l1 l2 : List (TaggedData T)) (i : Nat) (st : RepairSt T),
      repairGo li i (l1 ++ l2) st =
        repairGo li (i + l1.length) l2 (repairGo li i l1 st)
  | [], l2, i, st => by simp [repairGo]
  | td :: rest, l2, i, st => by
    simp only [List.cons_append, repairGo]
    rw [show i + (td :: rest).length = (i + 1) + rest.length from by
      simp only [List.length_cons]
      omega]
    exact repairGo_append li rest l2 (i + 1) (repairStep li i td st)

lemma repairRun_succ {T : Type} [DecidableEq T] [Inhabited T]
    (n : Nat) (input : List (TaggedData T)) (i : Nat) (hi : i < input.length) :
    repairRun n input (i + 1) =
      repairStep (lastIndexScan input n input.length []) i
        (input.getD i ⟨default, []⟩) (repairRun n input i) := by
  unfold repairRun
  rw [List.take_succ, List.getElem?_eq_getElem hi,
    show (some input[i]).toList = [input[i]] from rfl, repairGo_append]
  have hlen : (input.take i).length = i := by
    rw [List.length_take]
    exact Nat.min_eq_left (Nat.le_of_lt hi)
  rw [hlen]
  simp only [repairGo]
  rw [Nat.zero_add]
  rw [show input.getD i (⟨default, []⟩ : TaggedData T) = input[i] from by
    rw [List.getD_eq_getElem?_getD, List.getElem?_eq_getElem hi]
    rfl]

/- Sanity check: the specification's flush rule does hold on a simple
newline-terminated two-chunk session, so its failure below is not a
definitional artifact. -/
example :
    repairFlushClaim 2 [(⟨0, [1, 10]⟩ : TaggedData Nat), ⟨1, [2, 10]⟩] := by
  decide

/-- C3 counterexample: the flush rule exactly as the specification words it
fails on the session sequence `0:[1,10] 1:[2] 0:[3]` with two senders — the
first chunk ends in the line terminator and is emitted immediately although
it is not the last occurrence of its tag and no pending buffer for its tag
exists. -/
theorem repair_flush_claim_false :
    ¬ repairFlushClaim 2 [(⟨0, [1, 10]⟩ : TaggedData Nat), ⟨1, [2]⟩, ⟨0, [3]⟩] := by
  decide

/-- C3 amended: in the forward walk, provided the step does not panic and
the chunk's payload is non-empty, a chunk is emitted exactly when its
payload ends in the line-terminator byte and the pending queue is empty or
headed by a chunk of its tag, or the recorded last-occurrence index of its
tag (bounded backward scan, missing tags defaulting to position 0) equals
its position; a non-flushed chunk's payload is appended to the pending
queue with nothing emitted; and a flush with at most one pending fragment
of the tag emits that fragment (if any) concatenated ahead of the payload
and removes it from the pending queue. -/
theorem repair_flush_characterization {T : Type} [DecidableEq T] [Inhabited T]
    (n : Nat) (input : List (TaggedData T)) (i : Nat) (hi : i < input.length)
    (hpan : (repairRun n input (i + 1)).panicked = false)
    (hne : (input.getD i ⟨default, []⟩).data ≠ []) :
    repairRun n input (i + 1) =
      repairStep (lastIndexScan input n input.length []) i
        (input.getD i ⟨default, []⟩) (repairRun n input i) ∧
    (emitAt n input i ↔
      codeCond (lastIndexScan input n input.length []) i
        (input.getD i ⟨default, []⟩) (repairRun n input i).buffer) ∧
    (¬ codeCond (lastIndexScan input n input.length []) i
        (input.getD i ⟨default, []⟩) (repairRun n input i).buffer →
      repairRun n input (i + 1) =
        { repairRun n input i with
            buffer := (repairRun n input i).buffer ++
              [input.getD i ⟨default, []⟩] }) ∧
    (codeCond (lastIndexScan input n input.length []) i
        (input.getD i ⟨default, []⟩) (repairRun n input i).buffer →
      countTag (repairRun n input i).buffer
        (input.getD i ⟨default, []⟩).tag ≤ 1 →
      repairRun n input (i + 1) =
        { repairRun n input i with
            buffer := (repairRun n input i).buffer.filter
              (fun bd => bd.tag ≠ (input.getD i ⟨default, []⟩).tag),
            result := (repairRun n input i).result ++
              [⟨(input.getD i ⟨default, []⟩).tag,
                headMatchData (repairRun n input i).buffer
                  (input.getD i ⟨default, []⟩).tag ++
                (input.getD i ⟨default, []⟩).data⟩] }) := by
  have hsucc := repairRun_succ n input i hi
  have hst : (repairRun n input i).panicked = false := by
    cases h : (repairRun n input i).panicked
    · rfl
    · rw [hsucc, repairStep_absorb _ _ _ _ h, h] at hpan
      exact hpan
  have hpost : (repairStep (lastIndexScan input n input.length []) i
      (input.getD i ⟨default, []⟩) (repairRun n input i)).panicked = false := by
    rw [← hsucc]
    exact hpan
  have hcases := repairStep_cases (lastIndexScan input n input.length []) i
    (input.getD i ⟨default, []⟩) (repairRun n input i) hst hne hpost
  refine ⟨hsucc, ?_, fun hnc => ?_, fun hcc hcount => ?_⟩
  · unfold emitAt
    rw [hsucc]
    exact hcases.1
  · rw [hsucc]
    exact hcases.2.1 hnc
  · rw [hsucc]
    exact hcases.2.2 hcc hcount

/-- Witness for C3 amended at the sequence `0:[1] 1:[2,10] 0:[3,10]`, index
2: the final chunk of tag 0 flushes with exactly one pending fragment. -/
theorem repair_flush_characterization_witness :
    ((repairRun 2 [(⟨0, [1]⟩ : TaggedData Nat), ⟨1, [2, 10]⟩, ⟨0, [3, 10]⟩]
        (2 + 1)).panicked = false ∧
      ([(⟨0, [1]⟩ : TaggedData Nat), ⟨1, [2, 10]⟩, ⟨0, [3, 10]⟩].getD 2
        ⟨default, []⟩).data ≠ []) ∧
    (emitAt 2 [(⟨0, [1]⟩ : TaggedData Nat), ⟨1, [2, 10]⟩, ⟨0, [3, 10]⟩] 2 ↔
      codeCond (lastIndexScan
          [(⟨0, [1]⟩ : TaggedData Nat), ⟨1, [2, 10]⟩, ⟨0, [3, 10]⟩] 2
          [(⟨0, [1]⟩ : TaggedData Nat), ⟨1, [2, 10]⟩, ⟨0, [3, 10]⟩].length []) 2
        ([(⟨0, [1]⟩ : TaggedData Nat), ⟨1, [2, 10]⟩, ⟨0, [3, 10]⟩].getD 2
          ⟨default, []⟩)
        (repairRun 2
          [(⟨0, [1]⟩ : TaggedData Nat), ⟨1, [2, 10]⟩, ⟨0, [3, 10]⟩] 2).buffer) := by
  refine ⟨⟨by decide, by decide⟩, ?_⟩
  exact (repair_flush_characterization 2
    [(⟨0, [1]⟩ : TaggedData Nat), ⟨1, [2, 10]⟩, ⟨0, [3, 10]⟩] 2
    (by decide) (by decide) (by decide)).2.1

end Iomux
